import Mathlib

/-!
Verification development for the apid-core data package: a registry of
versioned sqlite database handles (src/data/data.go), the row-to-struct
mapper StructsFromRows, and the tracing driver wrapper (the wrap package).
Go strings are modelled as Lean strings; Go byte slices as Option String
(none models a nil slice, some s a slice holding the bytes of s); machine
integers as Int (no arithmetic is performed on them by the modelled code);
float64 values as their raw bit patterns (a Nat), since the modelled code
only moves them.
-/

namespace ApidData

/-! Association lists: the model of Go maps.
Go map writes replace the previous value for the key; reads of an absent
key return the zero value, modelled by Option. -/

def assocGet {κ α : Type} [DecidableEq κ] : List (κ × α) → κ → Option α
  | [], _ => none
  | (k2, v) :: rest, k => if k2 = k then some v else assocGet rest k

def assocSet {κ α : Type} [DecidableEq κ] : List (κ × α) → κ → α → List (κ × α)
  | [], k, v => [(k, v)]
  | (k2, v2) :: rest, k, v =>
    if k2 = k then (k, v) :: rest else (k2, v2) :: assocSet rest k v

/-! The path join.
Modelled from the Go standard library: path.Join drops leading empty
elements, joins the rest with a slash and applies the lexical
simplification path.Clean (drop empty and dot components, resolve dotdot
against the preceding component, keep the rooted slash). -/

def splitSlashAux : List Char → List Char → List (List Char)
  | [], acc => [acc.reverse]
  | c :: cs, acc =>
    if c = '/' then acc.reverse :: splitSlashAux cs [] else splitSlashAux cs (c :: acc)

def splitOnSlash (s : String) : List String :=
  (splitSlashAux s.data []).map String.mk

def isRooted (s : String) : Bool :=
  match s.data with
  | '/' :: _ => true
  | _ => false

def cleanStep (rooted : Bool) (acc : List String) (c : String) : List String :=
  if c = ".." then
    match acc with
    | [] => if rooted then [] else [".."]
    | a :: rest => if a = ".." then c :: a :: rest else rest
  else c :: acc

def pathClean (p : String) : String :=
  if p = "" then "."
  else
    let rooted := isRooted p
    let comps := (splitOnSlash p).filter (fun c => c ≠ "" && c ≠ ".")
    let out := (comps.foldl (cleanStep rooted) []).reverse
    let joined := String.intercalate "/" out
    if joined = "" then (if rooted then "/" else ".")
    else (if rooted then "/" ++ joined else joined)

def pathJoin (elems : List String) : String :=
  match elems.dropWhile (fun e => e = "") with
  | [] => ""
  | rest => pathClean (String.intercalate "/" rest)

/-! The registry key and on-disk path (VersionedDBID, DBPath). -/

def commonDBID : String := "common"

def commonDBVersion : String := "base"

def VersionedDBID (id version : String) : String :=
  pathJoin [id, version]

def DBPath (storagePath relativeDataPath id : String) : String :=
  pathJoin [storagePath, relativeDataPath, id, "sqlite3"]

/-! The registry (dataService).
A handle is identified by the Nat counter value at its creation; dbMap
holds Option Nat values because ReleaseDBForID stores a nil pointer into
the map rather than deleting the entry. The outcomes of the filesystem
and engine calls made during creation are an explicit environment. -/

structure IOEnv where
  mkdirOk : Bool
  openOk : Bool
  pingOk : Bool
  walOk : Bool
  fkOk : Bool

structure Registry where
  dbMap : List (String × Option Nat)
  next : Nat

structure GetResult where
  retDb : Option Nat
  err : Option String
deriving DecidableEq, Repr

/-- Sequential model of dataService.dbVersionForID: look the key up; on a
hit return the stored handle; otherwise (with no re-check after the lock
upgrade, which is invisible sequentially) make the directory, open the
engine, assign the named return retDb, then ping and apply the two
pragmas - each failure returns the error with retDb as assigned so far
and inserts nothing - and finally insert the new entry. -/
def dbVersionForID (env : IOEnv) (st : Registry) (id version : String) :
    GetResult × Registry :=
  let versionedID := VersionedDBID id version
  match assocGet st.dbMap versionedID with
  | some (some h) => (⟨some h, none⟩, st)
  | _ =>
    if env.mkdirOk = false then (⟨none, some "mkdir failed"⟩, st)
    else if env.openOk = false then (⟨none, some "error loading db"⟩, st)
    else
      let retDb := st.next
      let st1 : Registry := { st with next := st.next + 1 }
      if env.pingOk = false then (⟨some retDb, some "error pinging db"⟩, st1)
      else if env.walOk = false then (⟨some retDb, some "error setting journal_mode"⟩, st1)
      else if env.fkOk = false then (⟨some retDb, some "error enabling foreign_keys"⟩, st1)
      else (⟨some retDb, none⟩,
        { st1 with dbMap := assocSet st1.dbMap versionedID (some retDb) })

def dataServiceDB (env : IOEnv) (st : Registry) : GetResult × Registry :=
  dbVersionForID env st commonDBID commonDBVersion

def DBForID (env : IOEnv) (st : Registry) (id : String) : GetResult × Registry :=
  if id = commonDBID then (⟨none, some s!"reserved ID: {id}"⟩, st)
  else dbVersionForID env st id commonDBVersion

def DBVersion (env : IOEnv) (st : Registry) (version : String) : GetResult × Registry :=
  if version = commonDBVersion then (⟨none, some s!"reserved version: {version}"⟩, st)
  else dbVersionForID env st commonDBID version

def DBVersionForID (env : IOEnv) (st : Registry) (id version : String) :
    GetResult × Registry :=
  if id = commonDBID then (⟨none, some s!"reserved ID: {id}"⟩, st)
  else if version = commonDBVersion then (⟨none, some s!"reserved version: {version}"⟩, st)
  else dbVersionForID env st id version

/-- Model of dataService.ReleaseDBForID: under the write lock, if the
entry holds a live handle, schedule the finalizer and store nil into the
map (the entry stays present, holding nil); otherwise log that the
handle was not found. The Bool reports whether a handle was found. -/
def ReleaseDBForID (st : Registry) (id version : String) : Registry × Bool :=
  let versionedID := VersionedDBID id version
  match assocGet st.dbMap versionedID with
  | some (some _) => ({ st with dbMap := assocSet st.dbMap versionedID none }, true)
  | _ => (st, false)

/-! The first-access race on dbVersionForID.
Two threads run dbVersionForID for the same key with every filesystem and
engine call succeeding. Each thread is a sequence of atomic steps under
the registry lock discipline of the code: the read-locked lookup (a
read-only critical section, taken as one step), the hit test on the value
read, the write-lock acquisition, and the create-insert-unlock section.
The code performs no second lookup after acquiring the write lock. A
blocked or finished thread does not move; a schedule names which thread
steps next. -/

inductive RacePhase
  | start
  | checked (dbm : Option (Option Nat))
  | locked
  | finished (ret : Nat)
deriving DecidableEq, Repr

structure RaceState where
  dbMap : List (String × Option Nat)
  next : Nat
  writerHeld : Bool
  thA : RacePhase
  thB : RacePhase
deriving DecidableEq, Repr

/-- One step of a thread inside dbVersionForID; none when the thread is
blocked on a lock or already finished. -/
def threadStep (vid : String) (dbMap : List (String × Option Nat)) (next : Nat)
    (writerHeld : Bool) :
    RacePhase → Option (List (String × Option Nat) × Nat × Bool × RacePhase)
  | .start =>
    if writerHeld then none
    else some (dbMap, next, writerHeld, .checked (assocGet dbMap vid))
  | .checked (some (some h)) => some (dbMap, next, writerHeld, .finished h)
  | .checked _ =>
    if writerHeld then none
    else some (dbMap, next, true, .locked)
  | .locked => some (assocSet dbMap vid (some next), next + 1, false, .finished next)
  | .finished _ => none

def raceStep (vid : String) (st : RaceState) (tid : Bool) : RaceState :=
  if tid then
    match threadStep vid st.dbMap st.next st.writerHeld st.thB with
    | some (m, n, w, ph) => ⟨m, n, w, st.thA, ph⟩
    | none => st
  else
    match threadStep vid st.dbMap st.next st.writerHeld st.thA with
    | some (m, n, w, ph) => ⟨m, n, w, ph, st.thB⟩
    | none => st

def raceRun (vid : String) (st : RaceState) (sched : List Bool) : RaceState :=
  sched.foldl (raceStep vid) st

def raceInit : RaceState := ⟨[], 0, false, .start, .start⟩

/-! StructsFromRows.
Record types are lists of fields, each with a Go name, a db tag (the
empty string models an absent tag) and one of the field types the code
handles; record values are parallel lists of field values. A result set
carries per column its name and engine-reported type and rows of engine
values. The decode mirrors the code: build the tag-to-field-name map,
choose a carrier per column from the engine-reported type (any type
outside the accepted set is a hard error, raised before any row is
read), then per row scan every column into its carrier and assign each
carrier to the mapped field under the coercion switch of the code. Go
reflect panics (SetInt or SetFloat on a field whose kind the value does
not match, reachable because int64 and float64 are ConvertibleTo types
reflect cannot set them through) are modelled as a distinct error kind. -/

inductive FType
  | str
  | nullStr
  | i64
  | nullInt
  | f64
  | nullFloat
  | bytes
deriving DecidableEq, Repr

inductive FVal
  | vStr (s : String)
  | vNullStr (valid : Bool) (s : String)
  | vI64 (n : Int)
  | vNullInt (valid : Bool) (n : Int)
  | vF64 (bits : Nat)
  | vNullFloat (valid : Bool) (bits : Nat)
  | vBytes (b : Option String)
deriving DecidableEq, Repr

structure Field where
  name : String
  tag : String
  ftype : FType
deriving DecidableEq, Repr

def RecordType := List Field

def Record := List FVal

def zeroVal : FType → FVal
  | .str => .vStr ""
  | .nullStr => .vNullStr false ""
  | .i64 => .vI64 0
  | .nullInt => .vNullInt false 0
  | .f64 => .vF64 0
  | .nullFloat => .vNullFloat false 0
  | .bytes => .vBytes none

def zeroRecord (t : List Field) : List FVal :=
  t.map (fun f => zeroVal f.ftype)

/-- The tag-to-field-name map: fields in order, untagged fields skipped,
a later field with the same tag replacing an earlier one (Go map write). -/
def buildMapper (t : List Field) : List (String × String) :=
  t.foldl (fun m f => if f.tag = "" then m else assocSet m f.tag f.name) []

/-- FieldByName: the first field with the given name, with its index. -/
def findField : List Field → String → Option (Nat × FType)
  | [], _ => none
  | f :: fs, n =>
    if f.name = n then some (0, f.ftype)
    else (findField fs n).map (fun p => (p.1 + 1, p.2))

def setAt : List FVal → Nat → FVal → List FVal
  | [], _, _ => []
  | _ :: xs, 0, a => a :: xs
  | x :: xs, n + 1, a => x :: setAt xs n a

inductive EngVal
  | null
  | text (s : String)
  | int (n : Int)
  | float (bits : Nat)
  | blob (b : String)
deriving DecidableEq, Repr

inductive Carrier
  | cNullString
  | cNullInt64
  | cNullFloat64
  | cBytes
deriving DecidableEq, Repr

inductive Cell
  | nstr (v : Option String)
  | nint (v : Option Int)
  | nfloat (v : Option Nat)
  | cbytes (b : Option String)
deriving DecidableEq, Repr

inductive SqlxErr
  | typeErr (msg : String)
  | goPanic (msg : String)
deriving DecidableEq, Repr

/-- The carrier switch over the engine-reported column type, with the
spelling of the code kept in the error message. -/
def chooseCarrier (colType : String) : Except SqlxErr Carrier :=
  match colType with
  | "null" => .ok .cNullString
  | "text" => .ok .cNullString
  | "integer" => .ok .cNullInt64
  | "float" => .ok .cNullFloat64
  | "blob" => .ok .cBytes
  | _ => .error (.typeErr ("unsupprted column type: " ++ colType))

def chooseCarriers : List (String × String) → Except SqlxErr (List Carrier)
  | [] => .ok []
  | (_, colType) :: cols => do
    let c ← chooseCarrier colType
    let cs ← chooseCarriers cols
    .ok (c :: cs)

/-- Modelled from the database/sql Scan of one engine value into the
chosen carrier, restricted to type-consistent cells: a null fills any
nullable carrier (and a nil byte slice), a value of its own
kind fills it, and any other combination is a scan error. -/
def scanCell : Carrier → EngVal → Except SqlxErr Cell
  | .cNullString, .null => .ok (.nstr none)
  | .cNullString, .text s => .ok (.nstr (some s))
  | .cNullInt64, .null => .ok (.nint none)
  | .cNullInt64, .int n => .ok (.nint (some n))
  | .cNullFloat64, .null => .ok (.nfloat none)
  | .cNullFloat64, .float b => .ok (.nfloat (some b))
  | .cBytes, .null => .ok (.cbytes none)
  | .cBytes, .blob b => .ok (.cbytes (some b))
  | _, _ => .error (.typeErr "sql: scan value type mismatch")

def scanRow : List Carrier → List EngVal → Except SqlxErr (List Cell)
  | [], [] => .ok []
  | c :: cs, v :: vs => do
    let cell ← scanCell c v
    let cells ← scanRow cs vs
    .ok (cell :: cells)
  | _, _ => .error (.typeErr "sql: wrong number of Scan destinations")

def ftypeName : FType → String
  | .str => "string"
  | .nullStr => "sql.NullString"
  | .i64 => "int64"
  | .nullInt => "sql.NullInt64"
  | .f64 => "float64"
  | .nullFloat => "sql.NullFloat64"
  | .bytes => "[]uint8"

def cannotConvert (colType : String) (ft : FType) : SqlxErr :=
  .typeErr ("cannot convert column type " ++ colType ++ " to field type " ++ ftypeName ft)

/-- The per-column assignment switch of the code: exact carrier type
assigns both Go struct fields; the widening cases write through only for
a non-null source, leaving the zero value otherwise; a blob assigns raw
bytes to a byte-slice field, its string conversion to a string field,
and fills a nullable-string field with the valid flag set exactly when
the blob is non-empty; every remaining combination either fails with the
cannot-convert error of the code, or - when reflect accepts the
conversion but the setter rejects the field kind (int64 to float64 or
string, float64 to int64) - panics. -/
def assignCell (colType : String) (ft : FType) (cur : FVal) : Cell → Except SqlxErr FVal
  | .nstr c =>
    match ft with
    | .nullStr => .ok (.vNullStr c.isSome (c.getD ""))
    | .str => .ok (match c with | some s => .vStr s | none => cur)
    | _ => .error (cannotConvert colType ft)
  | .nint c =>
    match ft with
    | .nullInt => .ok (.vNullInt c.isSome (c.getD 0))
    | .i64 => .ok (match c with | some n => .vI64 n | none => cur)
    | .f64 => .error (.goPanic "reflect: SetInt using unaddressable or wrongly typed value")
    | .str => .error (.goPanic "reflect: SetInt using unaddressable or wrongly typed value")
    | _ => .error (cannotConvert colType ft)
  | .nfloat c =>
    match ft with
    | .nullFloat => .ok (.vNullFloat c.isSome (c.getD 0))
    | .f64 => .ok (match c with | some b => .vF64 b | none => cur)
    | .i64 => .error (.goPanic "reflect: SetFloat using unaddressable or wrongly typed value")
    | _ => .error (cannotConvert colType ft)
  | .cbytes c =>
    match ft with
    | .bytes => .ok (.vBytes c)
    | .str => .ok (.vStr (c.getD ""))
    | .nullStr => .ok (.vNullStr (decide (c.getD "" ≠ "")) (c.getD ""))
    | _ => .error (cannotConvert colType ft)

/-- The assignment pass over one scanned row: per column, look its name
up in the tag map (a column with no mapped field is silently skipped),
find the field by name and assign the carrier value into the record
under construction. -/
def assignCols (t : List Field) (mapper : List (String × String)) :
    List (String × String) → List Cell → List FVal → Except SqlxErr (List FVal)
  | [], _, v => .ok v
  | _, [], v => .ok v
  | (cname, ctype) :: cols, cell :: cells, v =>
    match assocGet mapper cname with
    | none => assignCols t mapper cols cells v
    | some fname =>
      match findField t fname with
      | none => assignCols t mapper cols cells v
      | some (idx, ft) => do
        let cur := (v.get? idx).getD (.vStr "")
        let fv ← assignCell ctype ft cur cell
        assignCols t mapper cols cells (setAt v idx fv)

structure ResultSet where
  cols : List (String × String)
  rows : List (List EngVal)

def processRows (t : List Field) (mapper : List (String × String))
    (cols : List (String × String)) (carriers : List Carrier) :
    List (List EngVal) → Except SqlxErr (List (List FVal))
  | [] => .ok []
  | row :: rest => do
    let cells ← scanRow carriers row
    let v ← assignCols t mapper cols cells (zeroRecord t)
    let vs ← processRows t mapper cols carriers rest
    .ok (v :: vs)

/-- Model of StructsFromRows up to the final write into dest: the tag
map, the carrier choice (before any row is read), then the rows. -/
def structsFromRows (t : List Field) (rs : ResultSet) : Except SqlxErr (List (List FVal)) := do
  let mapper := buildMapper t
  let carriers ← chooseCarriers rs.cols
  processRows t mapper rs.cols carriers rs.rows

/-- The dest-facing behavior: the destination slice is replaced only by
the final reflect Set on success; any earlier return leaves it as it
was. -/
def applyStructsFromRows (t : List Field) (dest : List (List FVal)) (rs : ResultSet) :
    Except SqlxErr Unit × List (List FVal) :=
  match structsFromRows t rs with
  | .ok l => (.ok (), l)
  | .error e => (.error e, dest)

/-- Whether a column type is in the accepted set of the carrier switch. -/
def supportedColType (ty : String) : Bool :=
  ty = "null" || ty = "text" || ty = "integer" || ty = "float" || ty = "blob"

/-! The round-trip encoding.
The canonical engine representation of a record: each field becomes one
column named by its tag whose engine type is the carrier type of the
field, a null-flagged or nil value becoming an engine null. -/

def canonColType : FType → String
  | .str => "text"
  | .nullStr => "text"
  | .i64 => "integer"
  | .nullInt => "integer"
  | .f64 => "float"
  | .nullFloat => "float"
  | .bytes => "blob"

def carrierOf (ft : FType) : Carrier :=
  match ft with
  | .str => .cNullString
  | .nullStr => .cNullString
  | .i64 => .cNullInt64
  | .nullInt => .cNullInt64
  | .f64 => .cNullFloat64
  | .nullFloat => .cNullFloat64
  | .bytes => .cBytes

def encodeVal : FVal → EngVal
  | .vStr s => .text s
  | .vNullStr true s => .text s
  | .vNullStr false _ => .null
  | .vI64 n => .int n
  | .vNullInt true n => .int n
  | .vNullInt false _ => .null
  | .vF64 b => .float b
  | .vNullFloat true b => .float b
  | .vNullFloat false _ => .null
  | .vBytes (some s) => .blob s
  | .vBytes none => .null

/-- The carrier a canonical engine value scans into. -/
def encCell : FType → FVal → Cell
  | .str, v => .nstr (match v with | .vStr s => some s | _ => none)
  | .nullStr, v => .nstr (match v with | .vNullStr true s => some s | _ => none)
  | .i64, v => .nint (match v with | .vI64 n => some n | _ => none)
  | .nullInt, v => .nint (match v with | .vNullInt true n => some n | _ => none)
  | .f64, v => .nfloat (match v with | .vF64 b => some b | _ => none)
  | .nullFloat, v => .nfloat (match v with | .vNullFloat true b => some b | _ => none)
  | .bytes, v => .cbytes (match v with | .vBytes b => b | _ => none)

/-- A field value fits its declared type, with an invalid nullable value
normalized to a zero payload (what a scan of an engine null produces). -/
def fits : FType → FVal → Bool
  | .str, .vStr _ => true
  | .nullStr, .vNullStr true _ => true
  | .nullStr, .vNullStr false s => s = ""
  | .i64, .vI64 _ => true
  | .nullInt, .vNullInt true _ => true
  | .nullInt, .vNullInt false n => n = 0
  | .f64, .vF64 _ => true
  | .nullFloat, .vNullFloat true _ => true
  | .nullFloat, .vNullFloat false b => b = 0
  | .bytes, .vBytes _ => true
  | _, _ => false

def recordFits : List Field → List FVal → Bool
  | [], [] => true
  | f :: fs, v :: vs => fits f.ftype v && recordFits fs vs
  | _, _ => false

def encodeRecord (r : List FVal) : List EngVal :=
  r.map encodeVal

/-- The result set holding exactly the mapped columns of the record type
in canonical engine types, with one row per record. -/
def resultSetOf (t : List Field) (rs : List (List FVal)) : ResultSet :=
  ⟨t.map (fun f => (f.tag, canonColType f.ftype)), rs.map encodeRecord⟩

/-- The cells a canonical row scans into, one per field. -/
def encCells : List Field → List FVal → List Cell
  | f :: fs, v :: vs => encCell f.ftype v :: encCells fs vs
  | _, _ => []

/-! The tracing driver wrapper (the wrap package).
Each wrapped primitive is a pure function of the underlying engine call
outcome, returning the value handed back to the caller together with the
trace entries it writes; statements and transactions are identified by
the per-connection counters. -/

inductive Severity
  | debug
  | error
deriving DecidableEq, Repr

structure TraceEvent where
  sev : Severity
  msg : String
deriving DecidableEq, Repr

def wrapPrepare (stmtCounter : Int) (query : String) (engine : Except String Nat) :
    Except String Nat × Int × List TraceEvent :=
  let stmtID := stmtCounter + 1
  match engine with
  | .error e =>
    (.error e, stmtID,
      [⟨.debug, s!"begin prepare stmt: {query}"⟩, ⟨.error, s!"prepare stmt failed: {e}"⟩])
  | .ok stmt =>
    (.ok stmt, stmtID,
      [⟨.debug, s!"begin prepare stmt: {query}"⟩, ⟨.debug, "end prepare stmt"⟩])

def wrapBegin (txCounter : Int) (engine : Except String Nat) :
    Except String Nat × Int × List TraceEvent :=
  let txID := txCounter + 1
  match engine with
  | .error e =>
    (.error e, txID, [⟨.debug, "begin trans"⟩, ⟨.error, s!"begin trans failed: {e}"⟩])
  | .ok tx =>
    (.ok tx, txID, [⟨.debug, "begin trans"⟩, ⟨.debug, "end begin trans"⟩])

def wrapClose (engine : Option String) : Option String × List TraceEvent :=
  match engine with
  | some e => (some e, [⟨.debug, "begin close conn"⟩, ⟨.error, s!"close conn failed: {e}"⟩])
  | none => (none, [⟨.debug, "begin close conn"⟩, ⟨.debug, "end close conn"⟩])

def wrapQuery (query : String) (engine : Except String Nat) :
    Except String Nat × List TraceEvent :=
  match engine with
  | .error e =>
    (.error e, [⟨.debug, s!"begin query: {query}"⟩, ⟨.debug, s!"query failed: {e}"⟩])
  | .ok rows =>
    (.ok rows, [⟨.debug, s!"begin query: {query}"⟩, ⟨.debug, s!"end query: {rows}"⟩])

/-! The per-handle transaction mutex (ApidDb.Begin, Tx.Commit, Tx.Rollback).
Begin locks the handle mutex, asks the engine for a transaction, and on
engine failure unlocks and returns the error; a transaction object keeps
a closed flag, and the first Commit or Rollback on it sets the flag and
unlocks the mutex, while later calls only re-invoke the engine. The
model is a transition system over one handle: a begin attempt while the
mutex is held cannot take a step (the caller blocks); transaction
objects are named by the order of their creation; events record each
lock acquisition and each unlock with the transaction that performed it. -/

inductive TxOp
  | beginTx (engineOk : Bool)
  | commit (t : Nat)
  | rollback (t : Nat)
deriving DecidableEq, Repr

inductive TxEvent
  | lockAcquired
  | unlockOnBeginFail
  | unlockByTx (t : Nat)
deriving DecidableEq, Repr

structure HandleState where
  lockHeld : Bool
  txs : List (Nat × Bool)
  nextTx : Nat
deriving DecidableEq, Repr

/-- The shared body of Tx.Commit and Tx.Rollback: if the transaction is
not yet closed, set the closed flag and unlock the handle mutex;
otherwise only the engine call happens and the mutex is not touched. -/
def finishTx (st : HandleState) (t : Nat) : HandleState × List TxEvent :=
  match assocGet st.txs t with
  | some false =>
    ({ st with txs := assocSet st.txs t true, lockHeld := false }, [.unlockByTx t])
  | _ => (st, [])

def txStep (st : HandleState) : TxOp → HandleState × List TxEvent
  | .beginTx engineOk =>
    if st.lockHeld then (st, [])
    else if engineOk then
      ({ lockHeld := true, txs := st.txs ++ [(st.nextTx, false)], nextTx := st.nextTx + 1 },
        [.lockAcquired])
    else (st, [.lockAcquired, .unlockOnBeginFail])
  | .commit t => finishTx st t
  | .rollback t => finishTx st t

def txRun (st : HandleState) : List TxOp → HandleState × List TxEvent
  | [] => (st, [])
  | op :: ops =>
    let s1 := txStep st op
    let s2 := txRun s1.1 ops
    (s2.1, s1.2 ++ s2.2)

def txInit : HandleState := ⟨false, [], 0⟩

/-- The number of transactions begun and not yet committed or rolled back. -/
def openTxs (st : HandleState) : Nat :=
  (st.txs.filter (fun p => !p.2)).length

def countUnlockBy (t : Nat) (evs : List TxEvent) : Nat :=
  (evs.filter (fun e => match e with | .unlockByTx u => decide (u = t) | _ => false)).length

/-- The handle invariant tying the mutex, the open transactions and the
unlock events together. -/
def TxInv (st : HandleState) (evs : List TxEvent) : Prop :=
  openTxs st ≤ 1 ∧
  (st.lockHeld = false → openTxs st = 0) ∧
  (∀ p ∈ st.txs, p.1 < st.nextTx) ∧
  (st.txs.map Prod.fst).Nodup ∧
  (∀ t, countUnlockBy t evs = if assocGet st.txs t = some true then 1 else 0)

end ApidData

open ApidData

theorem assocGet_set_self {κ α : Type} [DecidableEq κ] (m : List (κ × α)) (k : κ) (v : α) :
    assocGet (assocSet m k v) k = some v := by
  induction m with
  | nil => simp [assocGet, assocSet]
  | cons p rest ih =>
    by_cases h : p.1 = k
    · simp [assocGet, assocSet, h]
    · simp [assocGet, assocSet, h, ih]

theorem assocGet_set_other {κ α : Type} [DecidableEq κ] (m : List (κ × α)) (k k2 : κ) (v : α)
    (h : k2 ≠ k) : assocGet (assocSet m k2 v) k = assocGet m k := by
  induction m with
  | nil => simp [assocGet, assocSet, h]
  | cons p rest ih =>
    by_cases h2 : p.1 = k2
    · simp [assocGet, assocSet, h2, h]
    · simp only [assocSet, assocGet]
      rw [if_neg h2]
      by_cases h3 : p.1 = k <;> simp [assocGet, h3, ih]


/-- C1: the claim states that dbVersionForID re-checks the map after
upgrading to the write lock so that exactly one handle is created per key
under a concurrent first access. The code performs no such re-check: under
the schedule in which both threads pass the read-locked lookup before
either takes the write lock, each thread creates and inserts a handle.
The final state shows two handles created (the counter reached 2), the
two callers holding distinct handles 0 and 1, and the registry keeping
only the second. -/
theorem race_two_handles_created :
    raceRun (VersionedDBID "org1" "1.0") raceInit [false, true, false, false, true, true] =
      ⟨[(VersionedDBID "org1" "1.0", some 1)], 2, false, .finished 0, .finished 1⟩ := by
  decide

/-- C5: passing the reserved identity sentinel as an explicit identity
argument, or the reserved version sentinel as an explicit version
argument, is rejected with a reserved-key error, the result carries no
handle, and the registry is left unchanged; the sentinels are accepted
only as the implicit components supplied by DB, DBForID and DBVersion. -/
theorem reserved_sentinels_rejected (env : IOEnv) (st : Registry) (id version : String) :
    DBForID env st commonDBID = (⟨none, some "reserved ID: common"⟩, st) ∧
    DBVersion env st commonDBVersion = (⟨none, some "reserved version: base"⟩, st) ∧
    ((DBVersionForID env st commonDBID version).1.retDb = none ∧
      ((DBVersionForID env st commonDBID version).1.err).isSome = true ∧
      (DBVersionForID env st commonDBID version).2 = st) ∧
    ((DBVersionForID env st id commonDBVersion).1.retDb = none ∧
      ((DBVersionForID env st id commonDBVersion).1.err).isSome = true ∧
      (DBVersionForID env st id commonDBVersion).2 = st) ∧
    dataServiceDB env st = dbVersionForID env st commonDBID commonDBVersion ∧
    DBForID env st id = (if id = commonDBID then (⟨none, some s!"reserved ID: {id}"⟩, st)
      else dbVersionForID env st id commonDBVersion) := by
  refine ⟨by simp [DBForID]; rfl, by simp [DBVersion]; rfl, ?_, ?_, rfl, rfl⟩
  · simp [DBVersionForID]
  · by_cases h : id = commonDBID <;> simp [DBVersionForID, h]

/-- C6: releasing a key whose entry holds a live handle stores nil in the
registry entry, so an immediately following access for the same key takes
the creation path and returns the fresh handle (the creation counter
value), which is distinct from every previously created handle and in
particular from the released one. -/
theorem release_then_get_fresh (env : IOEnv) (st : Registry) (id version : String) (h : Nat)
    (hMk : env.mkdirOk = true) (hOp : env.openOk = true) (hPing : env.pingOk = true)
    (hWal : env.walOk = true) (hFk : env.fkOk = true)
    (hFound : assocGet st.dbMap (VersionedDBID id version) = some (some h))
    (hLt : h < st.next) :
    (dbVersionForID env (ReleaseDBForID st id version).1 id version).1 =
      ⟨some st.next, none⟩ ∧ st.next ≠ h := by
  have hrel : (ReleaseDBForID st id version).1 =
      { st with dbMap := assocSet st.dbMap (VersionedDBID id version) none } := by
    simp [ReleaseDBForID, hFound]
  have hget : assocGet (assocSet st.dbMap (VersionedDBID id version) none)
      (VersionedDBID id version) = some none := assocGet_set_self _ _ _
  rw [hrel]
  constructor
  · simp [dbVersionForID, hget, hMk, hOp, hPing, hWal, hFk]
  · omega

/-- C6 witness: releasing handle 0 stored under key x/y and re-requesting
(x, y) yields the fresh handle 1, not 0. -/
theorem release_then_get_fresh_witness :
    (dbVersionForID ⟨true, true, true, true, true⟩
        (ReleaseDBForID ⟨[("x/y", some 0)], 1⟩ "x" "y").1 "x" "y").1 =
      ⟨some 1, none⟩ ∧ (1 : Nat) ≠ 0 :=
  release_then_get_fresh ⟨true, true, true, true, true⟩ ⟨[("x/y", some 0)], 1⟩ "x" "y" 0
    rfl rfl rfl rfl rfl (by decide) (by decide)

/-- C10: on a first access whose creation fails at the ping or at one of
the two pragma applications, dbVersionForID returns the already-assigned
named return retDb (a non-nil, unusable handle) together with a non-nil
error, and inserts nothing into the registry map. -/
theorem creation_failure_returns_handle_and_error_without_insert
    (env : IOEnv) (st : Registry) (id version : String)
    (hMiss : ∀ hh : Nat, assocGet st.dbMap (VersionedDBID id version) ≠ some (some hh))
    (hMk : env.mkdirOk = true) (hOp : env.openOk = true)
    (hFail : env.pingOk = false ∨ env.walOk = false ∨ env.fkOk = false) :
    (dbVersionForID env st id version).1.retDb = some st.next ∧
    ((dbVersionForID env st id version).1.err).isSome = true ∧
    ((dbVersionForID env st id version).2).dbMap = st.dbMap := by
  have hcase : assocGet st.dbMap (VersionedDBID id version) = none ∨
      assocGet st.dbMap (VersionedDBID id version) = some none := by
    rcases hv : assocGet st.dbMap (VersionedDBID id version) with _ | hh
    · exact Or.inl rfl
    · rcases hh with _ | hh2
      · exact Or.inr rfl
      · exact absurd hv (hMiss hh2)
  rcases hFail with hf | hf | hf <;> rcases hcase with hv | hv <;>
    rcases hping : env.pingOk <;> rcases hwal : env.walOk <;> rcases hfk : env.fkOk <;>
    simp_all [dbVersionForID]

/-- C10 witness: with a fresh registry and a ping failure, (a, b) yields
handle value 0 alongside the error and leaves the map empty. -/
theorem creation_failure_witness :
    (dbVersionForID ⟨true, true, false, true, true⟩ ⟨[], 0⟩ "a" "b").1.retDb = some 0 ∧
    ((dbVersionForID ⟨true, true, false, true, true⟩ ⟨[], 0⟩ "a" "b").1.err).isSome = true ∧
    ((dbVersionForID ⟨true, true, false, true, true⟩ ⟨[], 0⟩ "a" "b").2).dbMap = [] :=
  creation_failure_returns_handle_and_error_without_insert
    ⟨true, true, false, true, true⟩ ⟨[], 0⟩ "a" "b" (by intro hh; simp [assocGet])
    rfl rfl (Or.inl rfl)

/-- C8: the key construction is not injective: the distinct pairs
(a/b, c) and (a, b/c) join to the same VersionedKey, hence resolve to the
same on-disk path and, once one of them has created a handle, the other
is served the very same handle from the same registry entry. -/
theorem versionedDBID_not_injective :
    VersionedDBID "a/b" "c" = VersionedDBID "a" "b/c" ∧
    (("a/b", "c") : String × String) ≠ ("a", "b/c") ∧
    DBPath "/r" "d" (VersionedDBID "a/b" "c") = DBPath "/r" "d" (VersionedDBID "a" "b/c") ∧
    (dbVersionForID ⟨true, true, true, true, true⟩
        ((dbVersionForID ⟨true, true, true, true, true⟩ ⟨[], 0⟩ "a/b" "c").2) "a" "b/c").1 =
      ⟨some 0, none⟩ := by
  refine ⟨by decide, by decide, by decide, by decide⟩

/-! Lemmas about the mapper. -/

theorem exceptBind_err {α β : Type} (e : SqlxErr) (f : α → Except SqlxErr β) :
    (Except.error e >>= f : Except SqlxErr β) = Except.error e := rfl

theorem exceptBind_ok {α β : Type} (a : α) (f : α → Except SqlxErr β) :
    (Except.ok a >>= f : Except SqlxErr β) = f a := rfl

theorem chooseCarrier_unsupported (ty : String) (h : supportedColType ty = false) :
    chooseCarrier ty = .error (.typeErr ("unsupprted column type: " ++ ty)) := by
  simp only [supportedColType, Bool.or_eq_false_iff, decide_eq_false_iff_not] at h
  obtain ⟨⟨⟨⟨h1, h2⟩, h3⟩, h4⟩, h5⟩ := h
  unfold chooseCarrier
  split <;> simp_all

theorem chooseCarriers_unsupported (cols : List (String × String))
    (h : ∃ c ∈ cols, supportedColType c.2 = false) :
    ∃ ty, supportedColType ty = false ∧
      chooseCarriers cols = .error (.typeErr ("unsupprted column type: " ++ ty)) := by
  induction cols with
  | nil => simp at h
  | cons c rest ih =>
    by_cases hc : supportedColType c.2 = false
    · refine ⟨c.2, hc, ?_⟩
      simp only [chooseCarriers]
      rw [chooseCarrier_unsupported c.2 hc, exceptBind_err]
    · have hrest : ∃ d ∈ rest, supportedColType d.2 = false := by
        rcases h with ⟨d, hd, hds⟩
        rcases List.mem_cons.mp hd with h1 | h1
        · exact absurd (h1 ▸ hds) hc
        · exact ⟨d, h1, hds⟩
      obtain ⟨ty, hty, heq⟩ := ih hrest
      refine ⟨ty, hty, ?_⟩
      have hsup : supportedColType c.2 = true := by
        cases hv : supportedColType c.2
        · exact absurd hv hc
        · rfl
      obtain ⟨cr, hcr⟩ : ∃ cr, chooseCarrier c.2 = .ok cr := by
        simp only [supportedColType, Bool.or_eq_true, decide_eq_true_eq] at hsup
        rcases hsup with ((((h1 | h1) | h1) | h1) | h1) <;> rw [h1] <;> exact ⟨_, rfl⟩
      simp only [chooseCarriers]
      rw [hcr, exceptBind_ok, heq, exceptBind_err]

theorem structsFromRows_unsupported (t : List Field) (rs : ResultSet)
    (h : ∃ c ∈ rs.cols, supportedColType c.2 = false) :
    ∃ ty, supportedColType ty = false ∧
      structsFromRows t rs = .error (.typeErr ("unsupprted column type: " ++ ty)) := by
  obtain ⟨ty, hty, heq⟩ := chooseCarriers_unsupported rs.cols h
  refine ⟨ty, hty, ?_⟩
  unfold structsFromRows
  rw [heq, exceptBind_err]

/-- C2: as stated the claim is wrong only in its list of accepted types:
the code accepts five engine-reported column types (null, text, integer,
float, blob). For every result set containing a column whose type is
outside that set, StructsFromRows fails with the unsupported-column-type
error before reading any row, and the destination sequence is left
untouched. -/
theorem structsFromRows_unsupported_column_type_errors (t : List Field)
    (dest : List (List FVal)) (rs : ResultSet)
    (h : ∃ c ∈ rs.cols, supportedColType c.2 = false) :
    (∃ ty, supportedColType ty = false ∧
      structsFromRows t rs = .error (.typeErr ("unsupprted column type: " ++ ty))) ∧
    applyStructsFromRows t dest rs = ((applyStructsFromRows t dest rs).1, dest) := by
  obtain ⟨ty, hty, heq⟩ := structsFromRows_unsupported t rs h
  exact ⟨⟨ty, hty, heq⟩, by simp [applyStructsFromRows, heq]⟩

/-- C2 witness: a datetime column aborts the decode and leaves dest. -/
theorem structsFromRows_unsupported_column_type_errors_witness :
    (∃ ty, supportedColType ty = false ∧
      structsFromRows [⟨"F", "c", .str⟩] ⟨[("c", "datetime")], [[.text "x"]]⟩ =
        .error (.typeErr ("unsupprted column type: " ++ ty))) ∧
    applyStructsFromRows [⟨"F", "c", .str⟩] [[.vStr "old"]]
        ⟨[("c", "datetime")], [[.text "x"]]⟩ =
      ((applyStructsFromRows [⟨"F", "c", .str⟩] [[.vStr "old"]]
        ⟨[("c", "datetime")], [[.text "x"]]⟩).1, [[.vStr "old"]]) :=
  structsFromRows_unsupported_column_type_errors [⟨"F", "c", .str⟩] [[.vStr "old"]]
    ⟨[("c", "datetime")], [[.text "x"]]⟩ ⟨("c", "datetime"), by decide, by decide⟩

/-- C2 counterexample: the claim as frozen says every column type other
than the four types text, integer, float and blob is rejected; but the
code also accepts the reported type null (as a nullable string carrier),
so a result set with a null-typed column decodes without error and the
destination is replaced. -/
theorem structsFromRows_accepts_null_column_type :
    ("null" ≠ "text" ∧ "null" ≠ "integer" ∧ "null" ≠ "float" ∧ "null" ≠ "blob") ∧
    structsFromRows [⟨"F", "c", .nullStr⟩] ⟨[("c", "null")], [[.null]]⟩ =
      .ok [[.vNullStr false ""]] ∧
    applyStructsFromRows [⟨"F", "c", .nullStr⟩] [[.vNullStr true "old"]]
        ⟨[("c", "null")], [[.null]]⟩ = (.ok (), [[.vNullStr false ""]]) :=
  ⟨by decide, rfl, rfl⟩

/-! Lemmas for the canonical round trip. -/

theorem chooseCarrier_canon (ft : FType) :
    chooseCarrier (canonColType ft) = .ok (carrierOf ft) := by
  cases ft <;> rfl

theorem chooseCarriers_canon (t : List Field) :
    chooseCarriers (t.map (fun f => (f.tag, canonColType f.ftype))) =
      .ok (t.map (fun f => carrierOf f.ftype)) := by
  induction t with
  | nil => rfl
  | cons f fs ih =>
    simp only [List.map_cons, chooseCarriers]
    rw [chooseCarrier_canon, exceptBind_ok, ih, exceptBind_ok]

theorem scanCell_enc (ft : FType) (v : FVal) (h : fits ft v = true) :
    scanCell (carrierOf ft) (encodeVal v) = .ok (encCell ft v) := by
  cases ft <;> cases v <;>
    first
    | rfl
    | (rename_i b p
       cases b <;> simp_all [fits, carrierOf, encodeVal, encCell, scanCell])
    | (rename_i p
       cases p <;> simp_all [fits, carrierOf, encodeVal, encCell, scanCell])

theorem assignCell_enc (ctype : String) (ft : FType) (cur v : FVal) (h : fits ft v = true) :
    assignCell ctype ft cur (encCell ft v) = .ok v := by
  cases ft <;> cases v <;>
    first
    | rfl
    | (rename_i b p
       cases b <;> simp_all [fits, encCell, assignCell])
    | (rename_i p
       cases p <;> simp_all [fits, encCell, assignCell])

theorem scanRow_canon (t : List Field) : ∀ r : List FVal, recordFits t r = true →
    scanRow (t.map fun f => carrierOf f.ftype) (encodeRecord r) = .ok (encCells t r) := by
  induction t with
  | nil =>
    intro r h
    cases r with
    | nil => rfl
    | cons v vs => simp [recordFits] at h
  | cons f fs ih =>
    intro r h
    cases r with
    | nil => simp [recordFits] at h
    | cons v vs =>
      simp only [recordFits, Bool.and_eq_true] at h
      simp only [List.map_cons, encodeRecord, encCells, scanRow]
      rw [scanCell_enc f.ftype v h.1, exceptBind_ok]
      have hih := ih vs h.2
      simp only [encodeRecord] at hih
      rw [hih, exceptBind_ok]

theorem foldMapper_unchanged (t : List Field) (m0 : List (String × String)) (k : String)
    (hk : k ∉ t.map Field.tag) :
    assocGet (t.foldl (fun m f => if f.tag = "" then m else assocSet m f.tag f.name) m0) k =
      assocGet m0 k := by
  induction t generalizing m0 with
  | nil => rfl
  | cons g gs ih =>
    simp only [List.map_cons, List.mem_cons] at hk
    push_neg at hk
    obtain ⟨hne, hnotin⟩ := hk
    simp only [List.foldl_cons]
    by_cases hg : g.tag = ""
    · rw [if_pos hg]
      exact ih _ hnotin
    · rw [if_neg hg, ih _ hnotin, assocGet_set_other _ _ _ _ (Ne.symm hne)]

theorem buildMapper_get_aux (t : List Field) :
    ∀ (m0 : List (String × String)) (f : Field), f ∈ t → (t.map Field.tag).Nodup →
      f.tag ≠ "" →
      assocGet (t.foldl (fun m g => if g.tag = "" then m else assocSet m g.tag g.name) m0)
        f.tag = some f.name := by
  induction t with
  | nil => intro m0 f hf; cases hf
  | cons g gs ih =>
    intro m0 f hf htags htag0
    simp only [List.map_cons, List.nodup_cons] at htags
    rcases List.mem_cons.mp hf with h1 | h1
    · subst h1
      simp only [List.foldl_cons, if_neg htag0]
      rw [foldMapper_unchanged gs _ _ htags.1, assocGet_set_self]
    · simp only [List.foldl_cons]
      by_cases hg : g.tag = ""
      · rw [if_pos hg]
        exact ih _ f h1 htags.2 htag0
      · rw [if_neg hg]
        exact ih _ f h1 htags.2 htag0

theorem buildMapper_mem (t : List Field) (f : Field) (hf : f ∈ t)
    (htags : (t.map Field.tag).Nodup) (htag0 : f.tag ≠ "") :
    assocGet (buildMapper t) f.tag = some f.name :=
  buildMapper_get_aux t [] f hf htags htag0

theorem findField_at (pre post : List Field) (f : Field)
    (hnames : ((pre ++ f :: post).map Field.name).Nodup) :
    findField (pre ++ f :: post) f.name = some (pre.length, f.ftype) := by
  induction pre with
  | nil => simp [findField]
  | cons g pre' ih =>
    simp only [List.cons_append, List.map_cons, List.nodup_cons] at hnames
    have hg : g.name ≠ f.name := by
      intro heq
      exact hnames.1 (heq ▸ List.mem_map_of_mem Field.name (by simp))
    simp only [List.cons_append, findField, List.append_eq, if_neg hg]
    rw [ih hnames.2]
    simp [Option.map]

theorem setAt_length : ∀ (l : List FVal) (i : Nat) (v : FVal),
    (setAt l i v).length = l.length := by
  intro l
  induction l with
  | nil => intro i v; rfl
  | cons x xs ih =>
    intro i v
    cases i with
    | zero => rfl
    | succ n => simp [setAt, ih]

theorem setAt_take : ∀ (l : List FVal) (i : Nat) (v : FVal), i < l.length →
    (setAt l i v).take (i + 1) = l.take i ++ [v] := by
  intro l
  induction l with
  | nil => intro i v h; simp at h
  | cons x xs ih =>
    intro i v h
    cases i with
    | zero => simp [setAt]
    | succ n =>
      simp only [setAt, List.take_succ_cons, List.cons_append]
      rw [ih n v (by simpa using h)]

theorem assignCols_canon (t : List Field) (htags : (t.map Field.tag).Nodup)
    (hnames : (t.map Field.name).Nodup) (htag0 : ∀ g ∈ t, g.tag ≠ "") :
    ∀ (post pre : List Field) (rpost acc : List FVal),
      t = pre ++ post → recordFits post rpost = true → acc.length = t.length →
      assignCols t (buildMapper t) (post.map (fun f => (f.tag, canonColType f.ftype)))
        (encCells post rpost) acc = .ok (acc.take pre.length ++ rpost) := by
  intro post
  induction post with
  | nil =>
    intro pre rpost acc ht hfit hlen
    cases rpost with
    | nil =>
      simp only [List.map_nil, encCells, assignCols, List.append_nil]
      have : pre.length = acc.length := by
        rw [hlen, ht, List.append_nil]
      rw [this, List.take_length]
    | cons v vs => simp [recordFits] at hfit
  | cons f fs ih =>
    intro pre rpost acc ht hfit hlen
    cases rpost with
    | nil => simp [recordFits] at hfit
    | cons v vs =>
      simp only [recordFits, Bool.and_eq_true] at hfit
      have hf_mem : f ∈ t := by
        rw [ht]
        exact List.mem_append.mpr (Or.inr (List.mem_cons_self f fs))
      have hmap : assocGet (buildMapper t) f.tag = some f.name :=
        buildMapper_mem t f hf_mem htags (htag0 f hf_mem)
      have hfind : findField t f.name = some (pre.length, f.ftype) := by
        rw [ht]
        exact findField_at pre fs f (by rw [← ht]; exact hnames)
      simp only [List.map_cons, encCells, assignCols, hmap, hfind]
      rw [assignCell_enc _ _ _ _ hfit.1, exceptBind_ok]
      have hplen : pre.length < acc.length := by
        rw [hlen, ht]
        simp
      have hlen2 : (setAt acc pre.length v).length = t.length := by
        rw [setAt_length]
        exact hlen
      have ht2 : t = (pre ++ [f]) ++ fs := by
        rw [ht]
        simp
      rw [ih (pre ++ [f]) vs (setAt acc pre.length v) ht2 hfit.2 hlen2]
      rw [List.length_append, List.length_singleton, setAt_take acc pre.length v hplen]
      simp

theorem processRows_canon (t : List Field) (htags : (t.map Field.tag).Nodup)
    (hnames : (t.map Field.name).Nodup) (htag0 : ∀ g ∈ t, g.tag ≠ "") :
    ∀ rs : List (List FVal), (∀ r ∈ rs, recordFits t r = true) →
      processRows t (buildMapper t) (t.map (fun f => (f.tag, canonColType f.ftype)))
        (t.map (fun f => carrierOf f.ftype)) (rs.map encodeRecord) = .ok rs := by
  intro rs
  induction rs with
  | nil => intro _; rfl
  | cons r rest ih =>
    intro hfits
    simp only [List.map_cons, processRows]
    rw [scanRow_canon t r (hfits r (List.mem_cons_self r rest)), exceptBind_ok]
    have hassign := assignCols_canon t htags hnames htag0 t [] r (zeroRecord t) rfl
      (hfits r (List.mem_cons_self r rest)) (by simp [zeroRecord])
    simp only [List.nil_append, List.length_nil, List.take_zero] at hassign
    rw [hassign, exceptBind_ok]
    rw [ih (fun r2 hr2 => hfits r2 (List.mem_cons_of_mem r hr2)), exceptBind_ok]

/-- C4 (amended): when every field carries a distinct non-empty column
tag, field names are distinct, and each mapped column reports the
canonical carrier type of its field (text for string and nullable-string
fields, integer for integer fields, float for float fields, blob for
byte-slice fields), decoding the canonical engine encoding of any list
of well-typed records reconstructs every field value bit for bit,
including the valid flags that distinguish a null value from an empty
non-null one; the blob-to-nullable-string widening is excluded, since
there the code conflates an empty non-null blob with a null one. -/
theorem structsFromRows_roundTrip (t : List Field) (rs : List (List FVal))
    (htag0 : ∀ f ∈ t, f.tag ≠ "") (htags : (t.map Field.tag).Nodup)
    (hnames : (t.map Field.name).Nodup)
    (hfits : ∀ r ∈ rs, recordFits t r = true) :
    structsFromRows t (resultSetOf t rs) = .ok rs := by
  unfold structsFromRows resultSetOf
  rw [chooseCarriers_canon, exceptBind_ok]
  exact processRows_canon t htags hnames htag0 rs hfits

/-- C4 witness: a record type covering every canonical field kind, with
two records that exercise null against empty for the nullable string,
the byte slice (nil against empty non-nil), the nullable integer and the
nullable float, decodes back to exactly the encoded records. -/
theorem structsFromRows_roundTrip_witness :
    structsFromRows
      [⟨"A", "a", .nullStr⟩, ⟨"B", "b", .bytes⟩, ⟨"C", "c", .i64⟩,
       ⟨"D", "d", .nullFloat⟩, ⟨"E", "e", .str⟩, ⟨"G", "g", .nullInt⟩, ⟨"H", "h", .f64⟩]
      (resultSetOf
        [⟨"A", "a", .nullStr⟩, ⟨"B", "b", .bytes⟩, ⟨"C", "c", .i64⟩,
         ⟨"D", "d", .nullFloat⟩, ⟨"E", "e", .str⟩, ⟨"G", "g", .nullInt⟩, ⟨"H", "h", .f64⟩]
        [[.vNullStr true "", .vBytes (some ""), .vI64 (-7), .vNullFloat true 0,
          .vStr "x", .vNullInt false 0, .vF64 4613937818241073152],
         [.vNullStr false "", .vBytes none, .vI64 0, .vNullFloat false 0,
          .vStr "", .vNullInt true 0, .vF64 0]]) =
      .ok
        [[.vNullStr true "", .vBytes (some ""), .vI64 (-7), .vNullFloat true 0,
          .vStr "x", .vNullInt false 0, .vF64 4613937818241073152],
         [.vNullStr false "", .vBytes none, .vI64 0, .vNullFloat false 0,
          .vStr "", .vNullInt true 0, .vF64 0]] :=
  structsFromRows_roundTrip
    [⟨"A", "a", .nullStr⟩, ⟨"B", "b", .bytes⟩, ⟨"C", "c", .i64⟩,
     ⟨"D", "d", .nullFloat⟩, ⟨"E", "e", .str⟩, ⟨"G", "g", .nullInt⟩, ⟨"H", "h", .f64⟩]
    [[.vNullStr true "", .vBytes (some ""), .vI64 (-7), .vNullFloat true 0,
      .vStr "x", .vNullInt false 0, .vF64 4613937818241073152],
     [.vNullStr false "", .vBytes none, .vI64 0, .vNullFloat false 0,
      .vStr "", .vNullInt true 0, .vF64 0]]
    (by decide) (by decide) (by decide) (by decide)

/-- C4 counterexample: for the supported blob-to-nullable-string mapping
the code sets the valid flag from the blob length, so a result set whose
single row holds an empty non-null blob decodes to exactly the same
record as one holding a null: the decode does not distinguish a null
source value from an empty non-null one. -/
theorem structsFromRows_empty_blob_conflated_with_null :
    EngVal.blob "" ≠ EngVal.null ∧
    structsFromRows [⟨"F", "c", .nullStr⟩] ⟨[("c", "blob")], [[.blob ""]]⟩ =
      structsFromRows [⟨"F", "c", .nullStr⟩] ⟨[("c", "blob")], [[.null]]⟩ ∧
    structsFromRows [⟨"F", "c", .nullStr⟩] ⟨[("c", "blob")], [[.blob ""]]⟩ =
      .ok [[.vNullStr false ""]] :=
  ⟨by decide, rfl, rfl⟩

/-! The tracing wrapper. -/

/-- C3 counterexample: the claim as frozen says every wrapped primitive
logs its failure at error severity, but wrapConn.Query logs a failure
with Debugf: when the engine fails a direct query, the returned error is
unchanged yet every trace entry written carries debug severity and no
error-severity entry exists. -/
theorem wrapQuery_failure_logged_at_debug :
    (wrapQuery "select 1" (.error "engine failure")).1 = .error "engine failure" ∧
    (∀ ev ∈ (wrapQuery "select 1" (.error "engine failure")).2, ev.sev = .debug) ∧
    ((wrapQuery "select 1" (.error "engine failure")).2.filter
      (fun ev => match ev.sev with | .error => true | _ => false)).length = 0 := by
  refine ⟨rfl, ?_, rfl⟩
  intro ev hev
  simp only [wrapQuery, List.mem_cons, List.not_mem_nil, or_false] at hev
  rcases hev with h | h <;> rw [h]

/-- C3 (amended): for every engine failure, the prepare-statement,
begin-transaction and close-connection wrappers log the failure at error
severity and return the engine error value unchanged, while the direct
query wrapper also returns the error unchanged but logs the failure at
debug severity; no wrapper masks or remaps the error. -/
theorem wrap_failures_returned_unchanged (c : Int) (q e : String) :
    (wrapPrepare c q (.error e)).1 = .error e ∧
    (∃ ev ∈ (wrapPrepare c q (.error e)).2.2, ev.sev = .error) ∧
    (wrapBegin c (.error e)).1 = .error e ∧
    (∃ ev ∈ (wrapBegin c (.error e)).2.2, ev.sev = .error) ∧
    (wrapClose (some e)).1 = some e ∧
    (∃ ev ∈ (wrapClose (some e)).2, ev.sev = .error) ∧
    (wrapQuery q (.error e)).1 = .error e ∧
    (∀ ev ∈ (wrapQuery q (.error e)).2, ev.sev = .debug) := by
  refine ⟨rfl, ⟨⟨.error, s!"prepare stmt failed: {e}"⟩, by simp [wrapPrepare], rfl⟩,
    rfl, ⟨⟨.error, s!"begin trans failed: {e}"⟩, by simp [wrapBegin], rfl⟩,
    rfl, ⟨⟨.error, s!"close conn failed: {e}"⟩, by simp [wrapClose], rfl⟩,
    rfl, ?_⟩
  intro ev hev
  simp only [wrapQuery, List.mem_cons, List.not_mem_nil, or_false] at hev
  rcases hev with h | h <;> rw [h]

/-! Lemmas for the transaction mutex. -/

theorem assocGet_mem {κ α : Type} [DecidableEq κ] :
    ∀ (l : List (κ × α)) (k : κ) (v : α), assocGet l k = some v → (k, v) ∈ l := by
  intro l
  induction l with
  | nil => intro k v h; simp [assocGet] at h
  | cons p rest ih =>
    intro k v h
    simp only [assocGet] at h
    by_cases hk : p.1 = k
    · rw [if_pos hk] at h
      have hp : p = (k, v) := Prod.ext hk (by injection h)
      rw [← hp]
      exact List.mem_cons_self p rest
    · rw [if_neg hk] at h
      exact List.mem_cons_of_mem _ (ih k v h)

theorem assocGet_append_left {κ α : Type} [DecidableEq κ] :
    ∀ (l1 l2 : List (κ × α)) (k : κ) (v : α),
      assocGet l1 k = some v → assocGet (l1 ++ l2) k = some v := by
  intro l1
  induction l1 with
  | nil => intro l2 k v h; simp [assocGet] at h
  | cons p rest ih =>
    intro l2 k v h
    simp only [assocGet] at h
    simp only [List.cons_append, assocGet]
    by_cases hk : p.1 = k
    · rw [if_pos hk] at h ⊢
      exact h
    · rw [if_neg hk] at h ⊢
      exact ih l2 k v h

theorem assocGet_append_right {κ α : Type} [DecidableEq κ] :
    ∀ (l1 l2 : List (κ × α)) (k : κ),
      assocGet l1 k = none → assocGet (l1 ++ l2) k = assocGet l2 k := by
  intro l1
  induction l1 with
  | nil => intro l2 k _; rfl
  | cons p rest ih =>
    intro l2 k h
    simp only [assocGet] at h
    simp only [List.cons_append, assocGet]
    by_cases hk : p.1 = k
    · rw [if_pos hk] at h
      cases h
    · rw [if_neg hk] at h ⊢
      exact ih l2 k h

theorem mem_assocSet {κ α : Type} [DecidableEq κ] :
    ∀ (l : List (κ × α)) (k : κ) (v : α) (p : κ × α),
      p ∈ assocSet l k v → p ∈ l ∨ p = (k, v) := by
  intro l
  induction l with
  | nil => intro k v p h; simp [assocSet] at h; exact Or.inr h
  | cons q rest ih =>
    intro k v p h
    simp only [assocSet] at h
    by_cases hk : q.1 = k
    · rw [if_pos hk] at h
      rcases List.mem_cons.mp h with h1 | h1
      · exact Or.inr h1
      · exact Or.inl (List.mem_cons_of_mem _ h1)
    · rw [if_neg hk] at h
      rcases List.mem_cons.mp h with h1 | h1
      · exact Or.inl (h1 ▸ List.mem_cons_self q rest)
      · rcases ih k v p h1 with h2 | h2
        · exact Or.inl (List.mem_cons_of_mem _ h2)
        · exact Or.inr h2

theorem keys_assocSet {κ α : Type} [DecidableEq κ] :
    ∀ (l : List (κ × α)) (k : κ) (v w : α), assocGet l k = some w →
      (assocSet l k v).map Prod.fst = l.map Prod.fst := by
  intro l
  induction l with
  | nil => intro k v w h; simp [assocGet] at h
  | cons q rest ih =>
    intro k v w h
    simp only [assocGet] at h
    simp only [assocSet]
    by_cases hk : q.1 = k
    · rw [if_pos hk]
      simp [hk]
    · rw [if_neg hk] at h ⊢
      simp only [List.map_cons]
      rw [ih k v w h]

theorem openTxs_set_true :
    ∀ (txs : List (Nat × Bool)) (t : Nat), assocGet txs t = some false →
      ((assocSet txs t true).filter (fun p => !p.2)).length + 1 =
        (txs.filter (fun p => !p.2)).length := by
  intro txs
  induction txs with
  | nil => intro t h; simp [assocGet] at h
  | cons q rest ih =>
    intro t h
    simp only [assocGet] at h
    by_cases hk : q.1 = t
    · rw [if_pos hk] at h
      have hq : q = (t, false) := Prod.ext hk (by injection h)
      simp only [assocSet, if_pos hk, hq]
      simp [List.filter_cons]
    · rw [if_neg hk] at h
      simp only [assocSet, if_neg hk]
      simp only [List.filter_cons]
      cases hv : q.2 <;> simp [ih t h]

theorem finishTx_inv (st : HandleState) (evs : List TxEvent) (t : Nat) (h : TxInv st evs) :
    TxInv (finishTx st t).1 (evs ++ (finishTx st t).2) := by
  obtain ⟨h1, h2, h3, h4, h5⟩ := h
  rcases hg : assocGet st.txs t with _ | v
  · simp only [finishTx, hg, List.append_nil]
    exact ⟨h1, h2, h3, h4, h5⟩
  · cases v
    case true =>
      simp only [finishTx, hg, List.append_nil]
      exact ⟨h1, h2, h3, h4, h5⟩
    case false =>
      simp only [finishTx, hg]
      have hmem : (t, false) ∈ st.txs := assocGet_mem st.txs t false hg
      have hopen : 0 < openTxs st := by
        have : (t, false) ∈ st.txs.filter (fun p => !p.2) :=
          List.mem_filter.mpr ⟨hmem, by simp⟩
        exact List.length_pos.mpr (List.ne_nil_of_mem this)
      have hone : openTxs st = 1 := le_antisymm h1 hopen
      have hzero : ((assocSet st.txs t true).filter (fun p => !p.2)).length = 0 := by
        have hstep := openTxs_set_true st.txs t hg
        have hone2 : (st.txs.filter (fun p => !p.2)).length = 1 := hone
        omega
      refine ⟨?_, ?_, ?_, ?_, ?_⟩
      · simp only [openTxs, hzero]
        omega
      · intro _
        simp only [openTxs, hzero]
      · intro p hp
        rcases mem_assocSet st.txs t true p hp with hm | hm
        · exact h3 p hm
        · rw [hm]
          exact h3 (t, false) hmem
      · simp only
        rw [keys_assocSet st.txs t true false hg]
        exact h4
      · intro u
        by_cases hu : u = t
        · subst hu
          simp only [countUnlockBy, List.filter_append, List.length_append]
          have hcount : countUnlockBy u evs = 0 := by
            rw [h5 u, if_neg]
            rw [hg]
            simp
          simp only [countUnlockBy] at hcount
          rw [hcount, assocGet_set_self]
          simp
        · simp only [countUnlockBy, List.filter_append, List.length_append]
          have hget : assocGet (assocSet st.txs t true) u = assocGet st.txs u :=
            assocGet_set_other st.txs u t true (fun he => hu he.symm)
          rw [hget]
          have := h5 u
          simp only [countUnlockBy] at this
          rw [this]
          have hne : t ≠ u := fun he => hu he.symm
          simp [hne]

theorem txStep_inv (st : HandleState) (evs : List TxEvent) (op : TxOp) (h : TxInv st evs) :
    TxInv (txStep st op).1 (evs ++ (txStep st op).2) := by
  cases op with
  | commit t => exact finishTx_inv st evs t h
  | rollback t => exact finishTx_inv st evs t h
  | beginTx ok =>
    obtain ⟨h1, h2, h3, h4, h5⟩ := h
    cases hl : st.lockHeld
    · cases ok
      · have hstep : txStep st (TxOp.beginTx false) =
            (st, [.lockAcquired, .unlockOnBeginFail]) := by
          simp [txStep, hl]
        rw [hstep]
        refine ⟨h1, h2, h3, h4, ?_⟩
        intro u
        simp only [countUnlockBy, List.filter_append, List.length_append]
        have := h5 u
        simp only [countUnlockBy] at this
        rw [this]
        simp
      · have hstep : txStep st (TxOp.beginTx true) =
            ({ lockHeld := true, txs := st.txs ++ [(st.nextTx, false)],
               nextTx := st.nextTx + 1 }, [.lockAcquired]) := by
          simp [txStep, hl]
        rw [hstep]
        have hzero : openTxs st = 0 := h2 hl
        refine ⟨?_, ?_, ?_, ?_, ?_⟩
        · simp only [openTxs, List.filter_append]
          simp only [openTxs] at hzero
          simp [hzero]
        · intro hcontra
          simp at hcontra
        · intro p hp
          rcases List.mem_append.mp hp with hm | hm
          · exact Nat.lt_succ_of_lt (h3 p hm)
          · simp only [List.mem_singleton] at hm
            rw [hm]
            exact Nat.lt_succ_self _
        · simp only [List.map_append, List.map_cons, List.map_nil]
          rw [List.nodup_append]
          refine ⟨h4, List.nodup_singleton _, ?_⟩
          intro a ha hb
          simp only [List.mem_singleton] at hb
          subst hb
          obtain ⟨p, hp, hpa⟩ := List.mem_map.mp ha
          have := h3 p hp
          omega
        · intro u
          simp only [countUnlockBy, List.filter_append, List.length_append]
          have := h5 u
          simp only [countUnlockBy] at this
          rw [this]
          rcases hg : assocGet st.txs u with _ | w
          · rw [assocGet_append_right st.txs _ u hg]
            simp only [assocGet]
            by_cases hu : st.nextTx = u
            · simp [hu, hg]
            · simp [hu, hg]
          · rw [assocGet_append_left st.txs _ u w hg]
            simp
    · have hstep : txStep st (TxOp.beginTx ok) = (st, []) := by simp [txStep, hl]
      rw [hstep]
      simp only [List.append_nil]
      exact ⟨h1, h2, h3, h4, h5⟩

theorem txRun_inv (ops : List TxOp) :
    ∀ (st : HandleState) (evs : List TxEvent), TxInv st evs →
      TxInv (txRun st ops).1 (evs ++ (txRun st ops).2) := by
  induction ops with
  | nil =>
    intro st evs h
    simp only [txRun, List.append_nil]
    exact h
  | cons op ops ih =>
    intro st evs h
    simp only [txRun]
    have hstep := txStep_inv st evs op h
    have hrest := ih (txStep st op).1 (evs ++ (txStep st op).2) hstep
    simpa [List.append_assoc] using hrest

theorem txInit_inv : TxInv txInit [] := by
  refine ⟨by simp [openTxs, txInit], by simp [openTxs, txInit], by simp [txInit],
    by simp [txInit], ?_⟩
  intro t
  simp [countUnlockBy, txInit, assocGet]

/-- C7: after any sequence of begin, commit and rollback operations on a
handle, at most one transaction is open (begun and neither committed nor
rolled back); and while one is open the mutex is held, so a further
begin attempt cannot take a step - it blocks until the open transaction
completes. -/
theorem at_most_one_open_transaction (ops : List TxOp) :
    openTxs (txRun txInit ops).1 ≤ 1 ∧
    (openTxs (txRun txInit ops).1 = 1 →
      ∀ engineOk, txStep (txRun txInit ops).1 (.beginTx engineOk) =
        ((txRun txInit ops).1, [])) := by
  have hinv := txRun_inv ops txInit [] txInit_inv
  simp only [List.nil_append] at hinv
  obtain ⟨h1, h2, _, _, _⟩ := hinv
  refine ⟨h1, ?_⟩
  intro hopen engineOk
  have hlock : (txRun txInit ops).1.lockHeld = true := by
    cases hlv : (txRun txInit ops).1.lockHeld
    · rw [h2 hlv] at hopen
      exact absurd hopen (by decide)
    · rfl
  simp [txStep, hlock]

/-- C9: across any sequence of operations on a handle, each transaction
object unlocks the handle mutex at most once: once its first Commit or
Rollback has set the closed flag, later Commit or Rollback calls on it
do not release the mutex again. -/
theorem transaction_unlocks_at_most_once (ops : List TxOp) (t : Nat) :
    countUnlockBy t (txRun txInit ops).2 ≤ 1 := by
  have hinv := txRun_inv ops txInit [] txInit_inv
  simp only [List.nil_append] at hinv
  obtain ⟨_, _, _, _, h5⟩ := hinv
  rw [h5 t]
  split <;> simp
